import Mathlib

/-!
Verification development for the Kaedim MCP request-routing decision engine.

The definitions below are a shallow embedding of the Python sources:

* `validatePreset`, `planSteps`, `assignArtist`, `isPriority` embed
  `KaedimMCPServer._validate_preset`, `_plan_steps`, `_assign_artist` and the
  nested `_is_priority` of `mcp_server.py` (the HTTP variant
  `mcp_server_http.py` contains the same logic verbatim).
* `MCPAgent.status`, `LLMAgent.finalStatus`, `stdioLoopGo`, `fallbackDecide`
  embed the deterministic pipeline and the ReAct loop of `run_agent.py`.
* `HTTPAgent.status`, `httpLoopGo` embed the ReAct loop of
  `run_agent_http.py`.

Modelling conventions:

* Python dicts with a known field set become structures; an `Option` field
  whose `none` means "key absent from the dict" is marked in a comment.
* JSON scalar values that participate only in equality tests are modelled
  as `String`; numbers that are computed with are `Int`.
* Wall-clock timestamps are passed in as an opaque `now : String` argument;
  observability events (`_emit_event`) and log output are not modelled, as
  no claim concerns them.
* Python's stable `list.sort(key=..., reverse=True)` is embedded as
  `List.mergeSort` with the reversed lexicographic comparison; both are
  stable sorts for the same total preorder, hence extensionally equal.
-/

/-- Python `pat in hay` on strings: contiguous substring test. -/
def strContains (hay pat : String) : Bool :=
  decide (pat.toList <:+: hay.toList)

/-- ASCII lowercasing of one character.  All strings the engine lowercases
(styles, engines, topologies, skill tags) are ASCII, where Python's
`str.lower()` agrees with this. -/
def lowerChar (c : Char) : Char :=
  if 65 ≤ c.toNat ∧ c.toNat ≤ 90 then Char.ofNat (c.toNat + 32) else c

/-- Python `s.lower()` (ASCII). -/
def strLower (s : String) : String :=
  String.mk (s.toList.map lowerChar)

/-- Python `s.replace("_", " ")`: the pattern is a single character, so the
replacement is a character map. -/
def underscoreToSpace (s : String) : String :=
  String.mk (s.toList.map (fun c => if c = '_' then ' ' else c))

/-- A loaded request: one JSON object, modelled as an association list of
its string-valued fields (`style`, `engine`, `topology`, priority hints,
plus `id` and `account`). -/
abbrev Req := List (String × String)

/-- Python `request.get(key)`. -/
def Req.get (r : Req) (k : String) : Option String :=
  List.lookup k r

/-- Python `request["id"]` (every loaded request carries an `id`). -/
def Req.rid (r : Req) : String :=
  (r.get "id").getD ""

/-- Python `request["account"]`. -/
def Req.account (r : Req) : String :=
  (r.get "account").getD ""

/-- Python `next((r for r in self.requests if r["id"] == request_id), None)`. -/
def findReq (requests : List Req) (requestId : String) : Option Req :=
  requests.find? (fun r => r.rid == requestId)

/-- A per-account preset.  `naming = some p` means the preset has a
`naming` section whose `pattern` entry reads back as `p` (a missing
`pattern` key reads back as `""`, exactly as `preset["naming"].get("pattern", "")`
does); `naming = none` means there is no `naming` section at all.
`packing` is the channel-key set of the `packing` section when present;
`version` is the `version` entry when present. -/
structure Preset where
  naming : Option String := none
  packing : Option (List String) := none
  version : Option Int := none
deriving DecidableEq

/-- The dict returned by `_validate_preset`.  `presetVersion = none` and
`validationTimestamp = none` mean the respective key is absent from the
returned dict (as in the request-not-found branch); when present,
`presetVersion` holds the nullable version value. -/
structure ValidateResult where
  ok : Bool
  errors : List String
  presetVersion : Option (Option Int) := none
  validationTimestamp : Option String := none
deriving DecidableEq

/-- The four required texture channels of `_validate_preset`. -/
def requiredChannels : List String := ["r", "g", "b", "a"]

/-- Embedding of `KaedimMCPServer._validate_preset` (mcp_server.py:255-305).
The `validation.failed` observability event emitted alongside the missing
channel error is not modelled. -/
def validatePreset (requests : List Req) (presets : List (String × Preset))
    (requestId accountId : String) (now : String) : ValidateResult :=
  match findReq requests requestId with
  | none =>
    { ok := false, errors := ["Request " ++ requestId ++ " not found"] }
  | some _ =>
    let preset := (List.lookup accountId presets).getD {}
    let namingErrors : List String :=
      match preset.naming with
      | some pattern => if pattern = "" then ["Missing naming pattern in preset"] else []
      | none => []
    let packingErrors : List String :=
      match preset.packing with
      | some packing =>
        let missingChannels := requiredChannels.filter (fun ch => ! packing.contains ch)
        if missingChannels.isEmpty then []
        else ["Missing texture channels: " ++ String.intercalate ", " missingChannels]
      | none => ["No texture packing configuration found"]
    let versionErrors : List String :=
      match preset.version with
      | some _ => []
      | none => ["Preset version not specified"]
    let errors := namingErrors ++ packingErrors ++ versionErrors
    { ok := errors.isEmpty
      errors := errors
      presetVersion := some preset.version
      validationTimestamp := some now }

/-- A routing rule: the `if` condition (field name to required exact value,
in dict insertion order) and the `then` action (`steps = none` and
`queue = none` mean the respective key is absent from the action). -/
structure Rule where
  cond : List (String × String)
  steps : Option (List String) := none
  queue : Option String := none
deriving DecidableEq

/-- Python `all(request.get(key) == value for key, value in conditions.items())`. -/
def ruleMatches (req : Req) (rule : Rule) : Bool :=
  rule.cond.all (fun kv => req.get kv.1 == some kv.2)

/-- A matched-rule record; `rule` carries both the condition and the action
that the Python `RuleMatch` dataclass stores. -/
structure RuleMatch where
  ruleId : String
  rule : Rule
deriving DecidableEq

/-- Python `f"rule_{self.rules.index(rule)}"`: `list.index` returns the
index of the first element comparing equal. -/
def ruleIdOf (rules : List Rule) (rule : Rule) : String :=
  "rule_" ++ toString (List.indexOf rule rules)

/-- Python `steps.insert(-2, s)` (the list always has length at least 2
here, so the insertion point is `len - 2`; for shorter lists Python clamps
to 0, which the `take`/`drop` formulation reproduces). -/
def insertStep (steps : List String) (s : String) : List String :=
  steps.take (steps.length - 2) ++ s :: steps.drop (steps.length - 2)

/-- The inner loop of `_plan_steps`: for each step of a matched rule's
action, insert it before `qa_check` unless already present. -/
def applyRuleSteps (steps : List String) (actionSteps : List String) : List String :=
  actionSteps.foldl (fun acc s => if acc.contains s then acc else insertStep acc s) steps

/-- One iteration of the rule loop of `_plan_steps`: on a match, record the
`RuleMatch` and inject the action's steps. -/
def planStepF (rules : List Rule) (req : Req)
    (acc : List String × List RuleMatch) (rule : Rule) : List String × List RuleMatch :=
  if ruleMatches req rule then
    (applyRuleSteps acc.1 (rule.steps.getD []),
     acc.2 ++ [{ ruleId := ruleIdOf rules rule, rule := rule }])
  else acc

/-- The rule-application loop of `_plan_steps`, accumulating the step
sequence (seeded with `["qa_check", "delivery"]`) and the matched rules. -/
def planFold (rules : List Rule) (req : Req) : List String × List RuleMatch :=
  rules.foldl (planStepF rules req) (["qa_check", "delivery"], [])

/-- The dict returned by `_plan_steps`.  In the request-not-found branch
only `steps`, `matched_rules` and `error` are present; the remaining
fields keep their listed defaults. -/
structure PlanResult where
  steps : List String
  matchedRules : List RuleMatch
  error : Option String := none
  estimatedHours : Int := 0
  priorityQueue : Bool := false
deriving DecidableEq

/-- Embedding of `KaedimMCPServer._plan_steps` (mcp_server.py:307-356). -/
def planSteps (rules : List Rule) (requests : List Req) (requestId : String) : PlanResult :=
  match findReq requests requestId with
  | none =>
    { steps := [], matchedRules := []
      error := some ("Request " ++ requestId ++ " not found") }
  | some req =>
    let folded := planFold rules req
    { steps := folded.1
      matchedRules := folded.2
      estimatedHours := (folded.1.length : Int) * 2
      priorityQueue := folded.2.any (fun m => strContains (m.rule.queue.getD "") "expedite") }

/-- A worker: `capacity` is `int(artist.get("capacity_concurrent", 1))`,
`load` is `int(artist.get("active_load", 0))`. -/
structure Artist where
  id : String
  name : String
  skills : List String
  capacity : Int
  load : Int
deriving DecidableEq

/-- Embedding of the nested `_is_priority` of `_assign_artist`
(mcp_server.py:369-375): some rule matches the request and its action's
`queue` entry equals `"expedite"` exactly. -/
def isPriority (rules : List Rule) (req : Req) : Bool :=
  rules.any (fun rule => ruleMatches req rule && rule.queue == some "expedite")

/-- One per-worker scoring row of `_assign_artist`. -/
structure Row where
  artist : Artist
  reasons : List String
  skillScore : Int
  availableCapacity : Int
  load : Int
  priorityFlag : Int
  score : Int
deriving DecidableEq

/-- The per-worker row computation of `_assign_artist`
(mcp_server.py:380-429), independent of the rest of the roster. -/
def rowOf (prio : Bool) (style engine topology : String) (artist : Artist) : Row :=
  let skills := artist.skills.map strLower
  let joined := String.intercalate " " skills
  let styleHit := style ≠ "" ∧ (skills.contains style ∨ strContains joined (underscoreToSpace style))
  let engineHit := engine ≠ "" ∧ skills.contains engine
  let topologyHit := topology ≠ "" ∧ strContains joined topology
  let skillScore : Int :=
    (if styleHit then 10 else 0) + (if engineHit then 5 else 0) + (if topologyHit then 5 else 0)
  let availableCapacity : Int := max 0 (artist.capacity - artist.load)
  let baseScore : Int := availableCapacity * 2 + skillScore
  let priorityFlag : Int := if prio ∧ availableCapacity > 0 then 1 else 0
  let score : Int :=
    if prio then (if availableCapacity > 0 then baseScore + 6 else baseScore - 6) else baseScore
  let reasons :=
    (if styleHit then ["matches style " ++ style] else [])
      ++ (if engineHit then ["matches engine " ++ engine] else [])
      ++ (if topologyHit then ["matches topology " ++ topology] else [])
      ++ (if availableCapacity > 0 then ["has " ++ toString availableCapacity ++ " slots available"]
          else ["at full capacity"])
      ++ (if prio then
            (if availableCapacity > 0 then ["priority boost (available)"]
             else ["priority de-rank (full)"])
          else [])
  { artist := artist, reasons := reasons, skillScore := skillScore
    availableCapacity := availableCapacity, load := artist.load
    priorityFlag := priorityFlag, score := score }

/-- The sort key tuple of `_assign_artist`:
`(skill_score, priority_flag, available_capacity, -load, score)`. -/
abbrev RowKey := Int × Int × Int × Int × Int

/-- Key extraction for the lexicographic ranking. -/
def rowKey (r : Row) : RowKey :=
  (r.skillScore, r.priorityFlag, r.availableCapacity, -r.load, r.score)

/-- Lexicographic order on sort keys (non-strict). -/
def keyLe : RowKey → RowKey → Bool
  | (a1, a2, a3, a4, a5), (b1, b2, b3, b4, b5) =>
    if a1 = b1 then
      if a2 = b2 then
        if a3 = b3 then
          if a4 = b4 then decide (a5 ≤ b5) else decide (a4 < b4)
        else decide (a3 < b3)
      else decide (a2 < b2)
    else decide (a1 < b1)

/-- Comparison used by the ranking: `a` may precede `b` when the key of
`b` is lexicographically at most the key of `a` (descending order). -/
def rowLe (a b : Row) : Bool :=
  keyLe (rowKey b) (rowKey a)

/-- Python `rows.sort(key=..., reverse=True)`: a stable descending sort
(mcp_server.py:437-446). -/
def rankRows (rows : List Row) : List Row :=
  rows.mergeSort rowLe

/-- An entry of the `alternative_artists` list. -/
structure AltArtist where
  id : String
  name : String
  score : Int
deriving DecidableEq

/-- The dict returned by `_assign_artist`; `artistName = none` and
`matchScore = none` mean the key is absent (the null-selection dicts). -/
structure Assignment where
  artistId : Option String
  artistName : Option String := none
  reason : String
  matchScore : Option Int := none
  alternativeArtists : List AltArtist
deriving DecidableEq

/-- The minimal-eligibility test of `_assign_artist`:
`skill_score > 0 or available_capacity > 0`. -/
def eligibleRow (r : Row) : Bool :=
  decide (0 < r.skillScore) || decide (0 < r.availableCapacity)

/-- The selection tail of `_assign_artist` (mcp_server.py:448-470): take the
top-ranked row if eligible, with up to two eligible runners-up from the
next two ranks as alternatives. -/
def selectFromRows : List Row → Assignment
  | [] =>
    { artistId := none, reason := "No available artists with matching skills"
      alternativeArtists := [] }
  | top :: rest =>
    if eligibleRow top then
      { artistId := some top.artist.id
        artistName := some top.artist.name
        reason := "Best match: " ++ String.intercalate ", " top.reasons
        matchScore := some top.score
        alternativeArtists :=
          ((rest.take 2).filter eligibleRow).map
            (fun r => { id := r.artist.id, name := r.artist.name, score := r.score }) }
    else
      { artistId := none, reason := "No available artists with matching skills"
        alternativeArtists := [] }

/-- The row computation `_assign_artist` applies to each worker for a given
request: lowercased style, engine and topology (`(request.get(...) or "").lower()`)
and the rule-derived priority bit. -/
def reqRow (rules : List Rule) (req : Req) : Artist → Row :=
  rowOf (isPriority rules req)
    (strLower ((req.get "style").getD ""))
    (strLower ((req.get "engine").getD ""))
    (strLower ((req.get "topology").getD ""))

/-- Embedding of `KaedimMCPServer._assign_artist` (mcp_server.py:358-470). -/
def assignArtist (rules : List Rule) (requests : List Req) (artists : List Artist)
    (requestId : String) : Assignment :=
  match findReq requests requestId with
  | none =>
    { artistId := none, reason := "Request " ++ requestId ++ " not found"
      alternativeArtists := [] }
  | some req =>
    selectFromRows (rankRows (artists.map (reqRow rules req)))

/-- Python truthiness of `assignment_result.get("artist_id")`: a non-null,
non-empty worker id. -/
def artistAssigned (a : Assignment) : Bool :=
  match a.artistId with
  | some s => s ≠ ""
  | none => false

/-- The status derivation of the deterministic pipeline
`MCPAgent.process_request` (run_agent.py:202-213): `validation_failed` when
`validation_result.get("ok", False)` is falsy, else `assignment_failed`
when `assignment_result.get("artist_id")` is falsy, else `success`. -/
def MCPAgent.status (validationResult : ValidateResult) (assignmentResult : Assignment) : String :=
  if !validationResult.ok then "validation_failed"
  else if !(artistAssigned assignmentResult) then "assignment_failed"
  else "success"

/-- Python `.get("ok")` on the accumulated validation dict (empty dict when
validation never ran). -/
def stateOk : Option ValidateResult → Bool
  | some r => r.ok
  | none => false

/-- Python truthiness of `.get("artist_id")` on the accumulated assignment
dict (empty dict when assignment never ran). -/
def stateAssigned : Option Assignment → Bool
  | some r => artistAssigned r
  | none => false

/-- The final status derivation of the HTTP ReAct agent
(run_agent_http.py:581-596), computed purely from the accumulated state. -/
def HTTPAgent.status (v : Option ValidateResult) (a : Option Assignment) : String :=
  if !stateOk v then "validation_failed"
  else if !stateAssigned a then "assignment_failed"
  else "success"

/-- Python truthiness of the `status` variable (`if not status`): set and
neither `None` nor the empty string. -/
def truthyStr : Option String → Bool
  | some s => s ≠ ""
  | none => false

/-- The final status derivation of the stdio ReAct agent
(run_agent.py:430-447): a truthy policy-supplied status is kept verbatim,
otherwise the status is inferred from the accumulated observations; the
synonym tokens `completed`, `ok`, `done` are normalized to `success` when
validation passed and a worker was assigned. -/
def LLMAgent.finalStatus (llmStatus : Option String)
    (validationResult : Option ValidateResult) (assignmentResult : Option Assignment) : String :=
  let vOk := stateOk validationResult
  let assigned := stateAssigned assignmentResult
  let status :=
    if truthyStr llmStatus then llmStatus.getD ""
    else if !vOk then "validation_failed"
    else if !assigned then "assignment_failed"
    else "success"
  if (status = "completed" ∨ status = "ok" ∨ status = "done") ∧ vOk ∧ assigned then "success"
  else status

/-- The actions a policy can request in the stdio ReAct loop of
run_agent.py; `finish` carries `args.get("status")` (the remaining finish
args do not influence the recorded status), `unknown` stands for any other
action value, which the loop skips with a warning. -/
inductive SAction
  | readResource
  | validate
  | plan
  | assign
  | finish (status : Option String)
  | unknown
deriving DecidableEq

/-- Accumulated state of the stdio ReAct loop: the last result of each
engine call, plus the finish args once `finish` was executed
(`finStatus = some st` records `args.get("status") = st`). -/
structure SState where
  validation : Option ValidateResult := none
  planRes : Option PlanResult := none
  assignment : Option Assignment := none
  finStatus : Option (Option String) := none
deriving DecidableEq

/-- The bounded ReAct loop of `LLMEnhancedMCPAgent.process_request` in
run_agent.py (lines 355-428), for a fixed request.  The engines are pure
functions of the snapshot and the request id, so their results are the
constants `vres`, `pres`, `ares`; the external policy is an arbitrary
function of the accumulated observation actions.  Returns the list of
actions executed (in order) and the final state; `unknown` actions consume
a loop step but append no observation. -/
def stdioLoopGo (policy : List SAction → SAction)
    (vres : ValidateResult) (pres : PlanResult) (ares : Assignment) :
    Nat → SState → List SAction → List SAction × SState
  | 0, s, _ => ([], s)
  | fuel + 1, s, obs =>
    match policy obs with
    | .readResource =>
      let rest := stdioLoopGo policy vres pres ares fuel s (obs ++ [SAction.readResource])
      (SAction.readResource :: rest.1, rest.2)
    | .validate =>
      let rest := stdioLoopGo policy vres pres ares fuel
        { s with validation := some vres } (obs ++ [SAction.validate])
      (SAction.validate :: rest.1, rest.2)
    | .plan =>
      let rest := stdioLoopGo policy vres pres ares fuel
        { s with planRes := some pres } (obs ++ [SAction.plan])
      (SAction.plan :: rest.1, rest.2)
    | .assign =>
      let rest := stdioLoopGo policy vres pres ares fuel
        { s with assignment := some ares } (obs ++ [SAction.assign])
      (SAction.assign :: rest.1, rest.2)
    | .finish st => ([SAction.finish st], { s with finStatus := some st })
    | .unknown =>
      let rest := stdioLoopGo policy vres pres ares fuel s obs
      (SAction.unknown :: rest.1, rest.2)

/-- The actions executed by one stdio ReAct run with step ceiling
`maxSteps`. -/
def stdioTrace (policy : List SAction → SAction)
    (vres : ValidateResult) (pres : PlanResult) (ares : Assignment) (maxSteps : Nat) :
    List SAction :=
  (stdioLoopGo policy vres pres ares maxSteps {} []).1

/-- The status recorded by one stdio ReAct run: the loop followed by the
final status derivation. -/
def stdioRunStatus (policy : List SAction → SAction)
    (vres : ValidateResult) (pres : PlanResult) (ares : Assignment) (maxSteps : Nat) :
    String :=
  let s := (stdioLoopGo policy vres pres ares maxSteps {} []).2
  LLMAgent.finalStatus s.finStatus.join s.validation s.assignment

/-- The deterministic fallback of `_llm_decide_next_action`
(run_agent.py:515-528), used whenever the external decision call raises,
times out, or returns unparsable output: walk the canonical order based on
which actions have been observed, then finish with status `completed`. -/
def fallbackDecide (obs : List SAction) : SAction :=
  if obs.isEmpty then SAction.validate
  else if !(obs.contains SAction.validate) then SAction.validate
  else if !(obs.contains SAction.plan) then SAction.plan
  else if !(obs.contains SAction.assign) then SAction.assign
  else SAction.finish (some "completed")

/-- The actions a policy can request in the HTTP ReAct loop of
run_agent_http.py (an unparsable decision, or an absent `action` key, is
mapped to `finish` by `_react_decide`; any other tool name would make the
HTTP call raise, aborting the request). -/
inductive HAction
  | validate
  | plan
  | assign
  | finish
deriving DecidableEq

/-- Accumulated state (`state` dict) of the HTTP ReAct loop. -/
structure HState where
  validation : Option ValidateResult := none
  planRes : Option PlanResult := none
  assignment : Option Assignment := none
deriving DecidableEq

/-- Python `"validation_result" in state and "plan_result" in state and
"assignment_result" in state`. -/
def hAll (s : HState) : Bool :=
  s.validation.isSome && s.planRes.isSome && s.assignment.isSome

/-- The bounded ReAct loop of `LLMEnhancedMCPAgent.process_request` in
run_agent_http.py (lines 516-578), for a fixed request: execute the policy's
choice, record it, then exit early when a validate step returned not-ok, or
when all three of validate/plan/assign have been observed; `finish` exits
immediately.  Returns the executed actions (the trace order) and the final
state. -/
def httpLoopGo (policy : HState → Nat → HAction)
    (vres : ValidateResult) (pres : PlanResult) (ares : Assignment) :
    Nat → HState → Nat → List HAction × HState
  | 0, s, _ => ([], s)
  | fuel + 1, s, stepNo =>
    match policy s stepNo with
    | .finish => ([], s)
    | .validate =>
      let s' := { s with validation := some vres }
      if !vres.ok then ([HAction.validate], s')
      else if hAll s' then ([HAction.validate], s')
      else
        let rest := httpLoopGo policy vres pres ares fuel s' (stepNo + 1)
        (HAction.validate :: rest.1, rest.2)
    | .plan =>
      let s' := { s with planRes := some pres }
      if hAll s' then ([HAction.plan], s')
      else
        let rest := httpLoopGo policy vres pres ares fuel s' (stepNo + 1)
        (HAction.plan :: rest.1, rest.2)
    | .assign =>
      let s' := { s with assignment := some ares }
      if hAll s' then ([HAction.assign], s')
      else
        let rest := httpLoopGo policy vres pres ares fuel s' (stepNo + 1)
        (HAction.assign :: rest.1, rest.2)

/-- The actions executed by one HTTP ReAct run with step ceiling
`maxSteps` (step numbering starts at 1 as in the source). -/
def httpTrace (policy : HState → Nat → HAction)
    (vres : ValidateResult) (pres : PlanResult) (ares : Assignment) (maxSteps : Nat) :
    List HAction :=
  (httpLoopGo policy vres pres ares maxSteps {} 1).1

/-- Claim C5 (counterexample): at the concrete unknown request id
`does-not-exist`, `validate_preset` returns a dict that omits both the
`preset_version` and the `validation_timestamp` keys, so the claim that the
result always includes them — including when the request id is unknown —
is false on the code. -/
theorem c5_notFound_omits_version_timestamp :
    (validatePreset [] [] "does-not-exist" "acme" "T").presetVersion = none
      ∧ (validatePreset [] [] "does-not-exist" "acme" "T").validationTimestamp = none
      ∧ (validatePreset [] [] "does-not-exist" "acme" "T").ok = false
      ∧ (validatePreset [] [] "does-not-exist" "acme" "T").errors
          = ["Request does-not-exist not found"] := by
  decide

/-- Claim C5 (amended): `validate_preset` is a total function (it never
raises), and for every KNOWN request id its result carries the nullable
preset version and the validation timestamp, whether or not `ok` holds;
the request-not-found result carries only `ok=false` and the error list. -/
theorem c5_known_request_includes_version_timestamp
    (requests : List Req) (presets : List (String × Preset))
    (requestId accountId now : String)
    (h : (findReq requests requestId).isSome) :
    (validatePreset requests presets requestId accountId now).presetVersion
        = some ((List.lookup accountId presets).getD {}).version
      ∧ (validatePreset requests presets requestId accountId now).validationTimestamp
        = some now := by
  unfold validatePreset
  cases hf : findReq requests requestId with
  | none => rw [hf] at h; simp at h
  | some req => simp [hf]

/-- Witness for C5: the amended theorem applied at a concrete known
request. -/
theorem c5_known_request_includes_version_timestamp_witness :
    (validatePreset [[("id", "r1")]] [] "r1" "acme" "T").presetVersion
        = some ((List.lookup "acme" ([] : List (String × Preset))).getD {}).version
      ∧ (validatePreset [[("id", "r1")]] [] "r1" "acme" "T").validationTimestamp
        = some "T" :=
  c5_known_request_includes_version_timestamp [[("id", "r1")]] [] "r1" "acme" "T" (by decide)

/-- Claim C6 (counterexample): a preset with complete packing and a version
but NO naming section at all passes validation with `ok=true` and an empty
error list, so the claim that an error is accumulated whenever the naming
pattern is absent from the preset is false on the code (only an empty
pattern inside an existing naming section is flagged). -/
theorem c6_absent_naming_section_not_flagged :
    (validatePreset [[("id", "r6"), ("account", "a6")]]
        [("a6", { packing := some ["r", "g", "b", "a"], version := some 2 })]
        "r6" "a6" "T").ok = true
      ∧ (validatePreset [[("id", "r6"), ("account", "a6")]]
          [("a6", { packing := some ["r", "g", "b", "a"], version := some 2 })]
          "r6" "a6" "T").errors = [] := by
  decide

/-- Claim C6 (amended): for every known request, the naming check fires
only when the preset has a naming section: an empty pattern inside a
naming section accumulates the error and forces `ok=false`, while a preset
without a naming section is not checked for naming (with complete packing
and a version it validates with `ok=true` and no errors). -/
theorem c6_naming_check_scope
    (requests : List Req) (presets : List (String × Preset))
    (requestId accountId now : String) (ks : List String)
    (h : (findReq requests requestId).isSome) :
    (((List.lookup accountId presets).getD {}).naming = some "" →
        (validatePreset requests presets requestId accountId now).ok = false
          ∧ "Missing naming pattern in preset"
              ∈ (validatePreset requests presets requestId accountId now).errors)
      ∧ (((List.lookup accountId presets).getD {}).naming = none →
          ((List.lookup accountId presets).getD {}).packing = some ks →
          requiredChannels.all ks.contains = true →
          ((List.lookup accountId presets).getD {}).version.isSome = true →
          (validatePreset requests presets requestId accountId now).ok = true
            ∧ (validatePreset requests presets requestId accountId now).errors = []) := by
  unfold validatePreset
  cases hf : findReq requests requestId with
  | none => rw [hf] at h; simp at h
  | some req =>
    simp only [hf]
    constructor
    · intro hn
      simp [hn]
    · intro hn hp hall hv
      have hfilter : requiredChannels.filter (fun ch => ! ks.contains ch) = [] := by
        rw [List.filter_eq_nil_iff]
        intro ch hch
        simpa using List.all_eq_true.mp hall ch hch
      cases hver : ((List.lookup accountId presets).getD {}).version with
      | none => rw [hver] at hv; simp at hv
      | some v =>
        simp [hn, hp, hfilter, hver]
        intro x hx
        simpa using List.all_eq_true.mp hall x hx

/-- Witness for C6: the amended theorem applied at a concrete preset whose
naming section is present with an empty pattern. -/
theorem c6_naming_check_scope_witness :
    (validatePreset [[("id", "r6b")]] [("a", { naming := some "" })] "r6b" "a" "T").ok = false
      ∧ "Missing naming pattern in preset"
          ∈ (validatePreset [[("id", "r6b")]] [("a", { naming := some "" })] "r6b" "a" "T").errors :=
  (c6_naming_check_scope [[("id", "r6b")]] [("a", { naming := some "" })] "r6b" "a" "T"
      ["r", "g", "b", "a"] (by decide)).1 (by decide)

/-- The effect of one step-injection attempt of `_plan_steps` on the
injected prefix (the part of the sequence before the fixed
`[qa_check, delivery]` tail): a step already present anywhere in the
sequence is skipped, otherwise it is appended to the prefix. -/
def addStep (inj : List String) (s : String) : List String :=
  if s = "qa_check" ∨ s = "delivery" ∨ s ∈ inj then inj else inj ++ [s]

/-- One iteration of the rule loop, restricted to the injected prefix. -/
def injStepF (req : Req) (inj : List String) (rule : Rule) : List String :=
  if ruleMatches req rule then (rule.steps.getD []).foldl addStep inj else inj

/-- The injected prefix accumulated by `_plan_steps` over the whole rule
list, in stored rule order. -/
def injectedOf (rules : List Rule) (req : Req) : List String :=
  rules.foldl (injStepF req) []

theorem applyRuleSteps_nil (steps : List String) : applyRuleSteps steps [] = steps := rfl

theorem applyRuleSteps_cons (steps : List String) (s : String) (ss : List String) :
    applyRuleSteps steps (s :: ss)
      = applyRuleSteps (if steps.contains s then steps else insertStep steps s) ss := rfl

theorem insertStep_snoc (inj : List String) (s a b : String) :
    insertStep (inj ++ [a, b]) s = (inj ++ [s]) ++ [a, b] := by
  unfold insertStep
  have h : (inj ++ [a, b]).length - 2 = inj.length := by simp
  rw [h, List.take_left, List.drop_left]
  simp

theorem applyRuleSteps_split (ss : List String) :
    ∀ inj : List String,
      applyRuleSteps (inj ++ ["qa_check", "delivery"]) ss
        = ss.foldl addStep inj ++ ["qa_check", "delivery"] := by
  induction ss with
  | nil => intro inj; rfl
  | cons s ss ih =>
    intro inj
    rw [applyRuleSteps_cons, List.foldl_cons]
    by_cases h : s = "qa_check" ∨ s = "delivery" ∨ s ∈ inj
    · have hmem : s ∈ inj ++ ["qa_check", "delivery"] := by
        rcases h with h | h | h
        · subst h; simp
        · subst h; simp
        · exact List.mem_append_left _ h
      have hc : (inj ++ ["qa_check", "delivery"]).contains s = true := by simpa using hmem
      rw [hc, if_pos rfl]
      have ha : addStep inj s = inj := by rw [addStep, if_pos h]
      rw [ha]
      exact ih inj
    · have hmem : s ∉ inj ++ ["qa_check", "delivery"] := by
        intro hs
        rcases List.mem_append.mp hs with hs | hs
        · exact h (Or.inr (Or.inr hs))
        · simp only [List.mem_cons, List.mem_singleton, List.not_mem_nil, or_false] at hs
          rcases hs with hs | hs
          · exact h (Or.inl hs)
          · exact h (Or.inr (Or.inl hs))
      have hc : (inj ++ ["qa_check", "delivery"]).contains s = false := by
        simpa using hmem
      rw [hc]
      have ha : addStep inj s = inj ++ [s] := by rw [addStep, if_neg h]
      rw [ha, if_neg (by simp)]
      rw [insertStep_snoc]
      exact ih (inj ++ [s])

theorem planFold_fst_split (rules : List Rule) (req : Req) :
    ∀ (rs : List Rule) (inj : List String) (acc2 : List RuleMatch),
      (rs.foldl (planStepF rules req) (inj ++ ["qa_check", "delivery"], acc2)).1
        = rs.foldl (injStepF req) inj ++ ["qa_check", "delivery"] := by
  intro rs
  induction rs with
  | nil => intro inj acc2; rfl
  | cons r rs ih =>
    intro inj acc2
    rw [List.foldl_cons, List.foldl_cons]
    by_cases h : ruleMatches req r = true
    · rw [show planStepF rules req (inj ++ ["qa_check", "delivery"], acc2) r
            = (applyRuleSteps (inj ++ ["qa_check", "delivery"]) (r.steps.getD []),
               acc2 ++ [{ ruleId := ruleIdOf rules r, rule := r }]) by
          rw [planStepF, if_pos h]]
      rw [show injStepF req inj r = (r.steps.getD []).foldl addStep inj by
          rw [injStepF, if_pos h]]
      rw [applyRuleSteps_split]
      exact ih _ _
    · rw [show planStepF rules req (inj ++ ["qa_check", "delivery"], acc2) r
            = (inj ++ ["qa_check", "delivery"], acc2) by rw [planStepF, if_neg h]]
      rw [show injStepF req inj r = inj by rw [injStepF, if_neg h]]
      exact ih _ _

theorem planFold_snd_split (rules : List Rule) (req : Req) :
    ∀ (rs : List Rule) (st : List String × List RuleMatch),
      (rs.foldl (planStepF rules req) st).2
        = st.2 ++ (rs.filter (ruleMatches req)).map
            (fun rule => { ruleId := ruleIdOf rules rule, rule := rule : RuleMatch }) := by
  intro rs
  induction rs with
  | nil => intro st; simp
  | cons r rs ih =>
    intro st
    rw [List.foldl_cons, List.filter_cons]
    by_cases h : ruleMatches req r = true
    · rw [show planStepF rules req st r
            = (applyRuleSteps st.1 (r.steps.getD []),
               st.2 ++ [{ ruleId := ruleIdOf rules r, rule := r }]) by
          rw [planStepF, if_pos h]]
      rw [ih, h]
      simp
    · rw [show planStepF rules req st r = st by rw [planStepF, if_neg h]]
      rw [ih]
      have : (ruleMatches req r) = false := by
        cases hb : ruleMatches req r
        · rfl
        · exact absurd hb h
      rw [this]
      simp

/-- Invariant of the injected prefix: never contains the fixed tail steps
and never repeats a step. -/
def injInv (inj : List String) : Prop :=
  "qa_check" ∉ inj ∧ "delivery" ∉ inj ∧ inj.Nodup

theorem addStep_fold_inv (ss : List String) :
    ∀ inj : List String, injInv inj → injInv (ss.foldl addStep inj) := by
  induction ss with
  | nil => intro inj h; exact h
  | cons s ss ih =>
    intro inj h
    rw [List.foldl_cons]
    by_cases hg : s = "qa_check" ∨ s = "delivery" ∨ s ∈ inj
    · rw [show addStep inj s = inj by rw [addStep, if_pos hg]]
      exact ih inj h
    · rw [show addStep inj s = inj ++ [s] by rw [addStep, if_neg hg]]
      refine ih (inj ++ [s]) ?_
      obtain ⟨hqa, hdel, hnd⟩ := h
      push_neg at hg
      refine ⟨?_, ?_, ?_⟩
      · simp only [List.mem_append, List.mem_singleton]
        rintro (hc | hc)
        · exact hqa hc
        · exact hg.1 hc.symm
      · simp only [List.mem_append, List.mem_singleton]
        rintro (hc | hc)
        · exact hdel hc
        · exact hg.2.1 hc.symm
      · simp [List.nodup_append, hnd, hg.2.2]

theorem injStepF_fold_inv (req : Req) :
    ∀ (rs : List Rule) (inj : List String), injInv inj → injInv (rs.foldl (injStepF req) inj) := by
  intro rs
  induction rs with
  | nil => intro inj h; exact h
  | cons r rs ih =>
    intro inj h
    rw [List.foldl_cons]
    by_cases hm : ruleMatches req r = true
    · rw [show injStepF req inj r = (r.steps.getD []).foldl addStep inj by
          rw [injStepF, if_pos hm]]
      exact ih _ (addStep_fold_inv _ _ h)
    · rw [show injStepF req inj r = inj by rw [injStepF, if_neg hm]]
      exact ih _ h

theorem injectedOf_inv (rules : List Rule) (req : Req) : injInv (injectedOf rules req) :=
  injStepF_fold_inv req rules [] ⟨by simp, by simp, List.nodup_nil⟩

theorem foldl_injStepF_filter (req : Req) :
    ∀ (rs : List Rule) (inj : List String),
      rs.foldl (injStepF req) inj
        = (rs.filter (ruleMatches req)).foldl
            (fun i rule => (rule.steps.getD []).foldl addStep i) inj := by
  intro rs
  induction rs with
  | nil => intro inj; rfl
  | cons r rs ih =>
    intro inj
    rw [List.foldl_cons, List.filter_cons]
    by_cases hm : ruleMatches req r = true
    · rw [hm]
      rw [show injStepF req inj r = (r.steps.getD []).foldl addStep inj by
          rw [injStepF, if_pos hm]]
      rw [if_pos rfl, List.foldl_cons]
      exact ih _
    · have hm' : ruleMatches req r = false := by
        cases hb : ruleMatches req r
        · rfl
        · exact absurd hb hm
      rw [hm']
      rw [show injStepF req inj r = inj by rw [injStepF, if_neg hm]]
      simp only [Bool.false_eq_true, if_false]
      exact ih _

/-- Claim C4: for every known request and any rule set, the plan's step
sequence is exactly the injected prefix followed by the fixed tail
`[qa_check, delivery]` — so it ends with `qa_check` then `delivery` and no
injected step appears after `delivery`; the injected prefix accumulates
the matched rules' action steps in rule order (earlier matched rules
first, each rule's steps left to right, first occurrence kept), and the
whole sequence contains each step name at most once. -/
theorem c4_plan_steps_structure (rules : List Rule) (requests : List Req)
    (requestId : String) (req : Req) (h : findReq requests requestId = some req) :
    (planSteps rules requests requestId).steps
        = injectedOf rules req ++ ["qa_check", "delivery"]
      ∧ injectedOf rules req
          = (rules.filter (ruleMatches req)).foldl
              (fun inj rule => (rule.steps.getD []).foldl addStep inj) []
      ∧ "qa_check" ∉ injectedOf rules req
      ∧ "delivery" ∉ injectedOf rules req
      ∧ (planSteps rules requests requestId).steps.Nodup := by
  have hsteps : (planSteps rules requests requestId).steps
      = injectedOf rules req ++ ["qa_check", "delivery"] := by
    rw [planSteps, h]
    show (planFold rules req).1 = _
    rw [planFold]
    have := planFold_fst_split rules req rules [] []
    simpa [injectedOf] using this
  obtain ⟨hqa, hdel, hnd⟩ := injectedOf_inv rules req
  refine ⟨hsteps, foldl_injStepF_filter req rules [], hqa, hdel, ?_⟩
  rw [hsteps]
  simp [List.nodup_append, hnd, hqa, hdel]

/-- Witness for C4: the structure theorem applied to a concrete request and
a rule set that injects two steps. -/
theorem c4_plan_steps_structure_witness :
    (planSteps [{ cond := [], steps := some ["uv_unwrap", "retopology"] }]
        [[("id", "r4")]] "r4").steps
        = injectedOf [{ cond := [], steps := some ["uv_unwrap", "retopology"] }] [("id", "r4")]
            ++ ["qa_check", "delivery"]
      ∧ injectedOf [{ cond := [], steps := some ["uv_unwrap", "retopology"] }] [("id", "r4")]
          = ([{ cond := [], steps := some ["uv_unwrap", "retopology"] : Rule }].filter
              (ruleMatches [("id", "r4")])).foldl
              (fun inj rule => (rule.steps.getD []).foldl addStep inj) []
      ∧ "qa_check" ∉ injectedOf [{ cond := [], steps := some ["uv_unwrap", "retopology"] }] [("id", "r4")]
      ∧ "delivery" ∉ injectedOf [{ cond := [], steps := some ["uv_unwrap", "retopology"] }] [("id", "r4")]
      ∧ (planSteps [{ cond := [], steps := some ["uv_unwrap", "retopology"] }]
          [[("id", "r4")]] "r4").steps.Nodup :=
  c4_plan_steps_structure [{ cond := [], steps := some ["uv_unwrap", "retopology"] }]
    [[("id", "r4")]] "r4" [("id", "r4")] (by decide)

theorem matchedRules_eq (rules : List Rule) (requests : List Req)
    (requestId : String) (req : Req) (h : findReq requests requestId = some req) :
    (planSteps rules requests requestId).matchedRules
      = (rules.filter (ruleMatches req)).map
          (fun rule => { ruleId := ruleIdOf rules rule, rule := rule : RuleMatch }) := by
  rw [planSteps, h]
  show (planFold rules req).2 = _
  rw [planFold, planFold_snd_split]
  rfl

theorem priorityQueue_eq (rules : List Rule) (requests : List Req)
    (requestId : String) (req : Req) (h : findReq requests requestId = some req) :
    (planSteps rules requests requestId).priorityQueue
      = (rules.filter (ruleMatches req)).any
          (fun r => strContains (r.queue.getD "") "expedite") := by
  rw [planSteps, h]
  show ((planFold rules req).2.any _) = _
  rw [planFold, planFold_snd_split]
  rw [show ((["qa_check", "delivery"], ([] : List RuleMatch)).2) = [] from rfl]
  rw [List.nil_append, Bool.eq_iff_iff]
  simp only [List.any_eq_true, List.mem_map]
  constructor
  · rintro ⟨m, ⟨r, hr, rfl⟩, hq⟩
    exact ⟨r, hr, hq⟩
  · rintro ⟨r, hr, hq⟩
    exact ⟨_, ⟨r, hr, rfl⟩, hq⟩

/-- Claim C7 (counterexample): with the single always-matching rule whose
action queue marker is the string `expedite_now`, `plan_steps` reports
`priority_queue = true` (it tests substring containment, not equality),
while the assignment engine's `_is_priority` — which tests exact equality —
reports false; no rule's queue marker equals `"expedite"`, so the claimed
iff and the claimed agreement both fail at this input. -/
theorem c7_substring_vs_equality_divergence :
    (planSteps [{ cond := [], steps := some [], queue := some "expedite_now" }]
        [[("id", "r7")]] "r7").priorityQueue = true
      ∧ isPriority [{ cond := [], steps := some [], queue := some "expedite_now" }]
          [("id", "r7")] = false
      ∧ ∀ r ∈ [{ cond := [], steps := some [], queue := some "expedite_now" : Rule }],
          ¬ r.queue = some "expedite" := by
  refine ⟨by decide, by decide, ?_⟩
  intro r hr
  simp only [List.mem_singleton] at hr
  subst hr
  decide

/-- Claim C7 (amended): for every known request, `priority_queue` is true
iff some matched rule's queue marker CONTAINS `"expedite"` as a substring;
this implies the assignment engine's exact-equality priority
determination whenever it holds, and the two determinations agree on every
rule set whose queue markers only contain `"expedite"` by being exactly
`"expedite"`. -/
theorem c7_priority_queue_substring (rules : List Rule) (requests : List Req)
    (requestId : String) (req : Req) (h : findReq requests requestId = some req) :
    ((planSteps rules requests requestId).priorityQueue
        = (rules.filter (ruleMatches req)).any
            (fun r => strContains (r.queue.getD "") "expedite"))
      ∧ (isPriority rules req = true →
          (planSteps rules requests requestId).priorityQueue = true)
      ∧ ((∀ r ∈ rules, strContains (r.queue.getD "") "expedite" = true →
            r.queue = some "expedite") →
          (planSteps rules requests requestId).priorityQueue = isPriority rules req) := by
  have hpq := priorityQueue_eq rules requests requestId req h
  have hfwd : isPriority rules req = true →
      (planSteps rules requests requestId).priorityQueue = true := by
    intro hp
    rw [hpq, List.any_eq_true]
    rw [isPriority, List.any_eq_true] at hp
    obtain ⟨r, hr, hcond⟩ := hp
    simp only [Bool.and_eq_true, beq_iff_eq] at hcond
    refine ⟨r, List.mem_filter.mpr ⟨hr, hcond.1⟩, ?_⟩
    rw [hcond.2]
    decide
  refine ⟨hpq, hfwd, ?_⟩
  intro himp
  have hbwd : (planSteps rules requests requestId).priorityQueue = true →
      isPriority rules req = true := by
    intro hp
    rw [hpq, List.any_eq_true] at hp
    obtain ⟨r, hr, hc⟩ := hp
    obtain ⟨hrmem, hrmatch⟩ := List.mem_filter.mp hr
    rw [isPriority, List.any_eq_true]
    exact ⟨r, hrmem, by simp [hrmatch, himp r hrmem hc]⟩
  by_cases hb : (planSteps rules requests requestId).priorityQueue = true
  · rw [hb, (hbwd hb)]
  · rw [Bool.not_eq_true] at hb
    rw [hb]
    cases hp : isPriority rules req
    · rfl
    · rw [hfwd hp] at hb
      exact absurd hb (by simp)

/-- Witness for C7: the amended theorem applied at a concrete rule set with
the exact queue marker `expedite`. -/
theorem c7_priority_queue_substring_witness :
    ((planSteps [{ cond := [], queue := some "expedite" }] [[("id", "r7b")]] "r7b").priorityQueue
        = ([{ cond := [], queue := some "expedite" : Rule }].filter
            (ruleMatches [("id", "r7b")])).any
            (fun r => strContains (r.queue.getD "") "expedite"))
      ∧ (isPriority [{ cond := [], queue := some "expedite" }] [("id", "r7b")] = true →
          (planSteps [{ cond := [], queue := some "expedite" }]
            [[("id", "r7b")]] "r7b").priorityQueue = true)
      ∧ ((∀ r ∈ [{ cond := [], queue := some "expedite" : Rule }],
            strContains (r.queue.getD "") "expedite" = true → r.queue = some "expedite") →
          (planSteps [{ cond := [], queue := some "expedite" }]
              [[("id", "r7b")]] "r7b").priorityQueue
            = isPriority [{ cond := [], queue := some "expedite" }] [("id", "r7b")]) :=
  c7_priority_queue_substring [{ cond := [], queue := some "expedite" }]
    [[("id", "r7b")]] "r7b" [("id", "r7b")] (by decide)

theorem indexOf_min {α : Type} [DecidableEq α] (a : α) :
    ∀ (l : List α) (j : Nat), j < List.indexOf a l → l[j]? ≠ some a := by
  intro l
  induction l with
  | nil => intro j h; simp [List.indexOf] at h
  | cons b t ih =>
    intro j h
    rw [List.indexOf_cons] at h
    by_cases hb : b = a
    · rw [show (b == a) = true by simp [hb]] at h
      simp at h
    · rw [show (b == a) = false by simp [hb]] at h
      simp only [cond_false] at h
      cases j with
      | zero => simp [hb]
      | succ j =>
        have := ih j (by omega)
        simpa using this

/-- Claim C10: in `plan_steps`, every matched rule's reported `rule_id` is
`rule_` followed by the index of the FIRST rule in the stored list that
compares equal to it; consequently two structurally identical matched
rules receive the same `rule_id`, so reported ordinal identifiers need not
be distinct per matched rule. -/
theorem c10_rule_id_is_first_equal_index (rules : List Rule) (requests : List Req)
    (requestId : String) (req : Req) (h : findReq requests requestId = some req) :
    (∀ m ∈ (planSteps rules requests requestId).matchedRules,
        ∃ i : Nat, rules[i]? = some m.rule
          ∧ (∀ j, j < i → rules[j]? ≠ some m.rule)
          ∧ m.ruleId = "rule_" ++ toString i)
      ∧ ∀ m ∈ (planSteps rules requests requestId).matchedRules,
          ∀ m' ∈ (planSteps rules requests requestId).matchedRules,
            m.rule = m'.rule → m.ruleId = m'.ruleId := by
  have hm := matchedRules_eq rules requests requestId req h
  have hchar : ∀ m ∈ (planSteps rules requests requestId).matchedRules,
      m.rule ∈ rules ∧ m.ruleId = ruleIdOf rules m.rule := by
    intro m hmm
    rw [hm] at hmm
    obtain ⟨r, hr, rfl⟩ := List.mem_map.mp hmm
    exact ⟨(List.mem_filter.mp hr).1, rfl⟩
  constructor
  · intro m hmm
    obtain ⟨hmem, hid⟩ := hchar m hmm
    refine ⟨List.indexOf m.rule rules, ?_, ?_, ?_⟩
    · have hlt : List.indexOf m.rule rules < rules.length :=
        List.indexOf_lt_length.mpr hmem
      have hg := List.indexOf_get hlt
      rw [List.getElem?_eq_some]
      rw [List.get_eq_getElem] at hg
      exact ⟨hlt, hg⟩
    · intro j hj
      exact indexOf_min m.rule rules j hj
    · rw [hid]; rfl
  · intro m hm1 m' hm2 heq
    rw [(hchar m hm1).2, (hchar m' hm2).2, heq]

/-- Witness for C10: the theorem applied to a rule list containing two
structurally identical, always-matching rules. -/
theorem c10_rule_id_is_first_equal_index_witness :
    (∀ m ∈ (planSteps [{ cond := [], steps := some ["x"] }, { cond := [], steps := some ["x"] }]
          [[("id", "r10")]] "r10").matchedRules,
        ∃ i : Nat, [{ cond := [], steps := some ["x"] }, { cond := [], steps := some ["x"] : Rule }][i]?
              = some m.rule
          ∧ (∀ j, j < i →
              [{ cond := [], steps := some ["x"] }, { cond := [], steps := some ["x"] : Rule }][j]?
                ≠ some m.rule)
          ∧ m.ruleId = "rule_" ++ toString i)
      ∧ ∀ m ∈ (planSteps [{ cond := [], steps := some ["x"] }, { cond := [], steps := some ["x"] }]
            [[("id", "r10")]] "r10").matchedRules,
          ∀ m' ∈ (planSteps [{ cond := [], steps := some ["x"] }, { cond := [], steps := some ["x"] }]
              [[("id", "r10")]] "r10").matchedRules,
            m.rule = m'.rule → m.ruleId = m'.ruleId :=
  c10_rule_id_is_first_equal_index
    [{ cond := [], steps := some ["x"] }, { cond := [], steps := some ["x"] }]
    [[("id", "r10")]] "r10" [("id", "r10")] (by decide)

/-- Claim C1 (counterexample): in the stdio ReAct agent, a policy that
immediately finishes with `status = "success"` gets that status recorded
verbatim although validation never returned `ok=true` (it never even ran)
and no worker was assigned — the claimed invariant fails for this
processed request. -/
theorem c1_policy_status_recorded_verbatim :
    stdioRunStatus (fun _ => SAction.finish (some "success"))
        { ok := false, errors := ["No texture packing configuration found"] }
        { steps := ["qa_check", "delivery"], matchedRules := [] }
        { artistId := none, reason := "", alternativeArtists := [] } 8
      = "success"
    ∧ stateOk
        ((stdioLoopGo (fun _ => SAction.finish (some "success"))
            { ok := false, errors := ["No texture packing configuration found"] }
            { steps := ["qa_check", "delivery"], matchedRules := [] }
            { artistId := none, reason := "", alternativeArtists := [] } 8 {} []).2).validation
      = false
    ∧ stateAssigned
        ((stdioLoopGo (fun _ => SAction.finish (some "success"))
            { ok := false, errors := ["No texture packing configuration found"] }
            { steps := ["qa_check", "delivery"], matchedRules := [] }
            { artistId := none, reason := "", alternativeArtists := [] } 8 {} []).2).assignment
      = false := by
  refine ⟨rfl, rfl, rfl⟩

/-- Claim C1 (amended): the success/validation_failed/assignment_failed
derivation holds as claimed for the deterministic pipeline and for the
HTTP ReAct agent (whose final status ignores the policy's finish payload),
and for the stdio ReAct agent exactly when the policy supplies no truthy
status at finish; a truthy policy-supplied status is recorded verbatim and
can violate the invariant. -/
theorem c1_status_invariant_scope (v : ValidateResult) (a : Assignment)
    (ov : Option ValidateResult) (oa : Option Assignment) (st : Option String) :
    (MCPAgent.status v a = "success" ↔ v.ok = true ∧ artistAssigned a = true)
      ∧ (v.ok = false → MCPAgent.status v a = "validation_failed")
      ∧ (HTTPAgent.status ov oa = "success" ↔ stateOk ov = true ∧ stateAssigned oa = true)
      ∧ (stateOk ov = false → HTTPAgent.status ov oa = "validation_failed")
      ∧ (truthyStr st = false → LLMAgent.finalStatus st ov oa = HTTPAgent.status ov oa) := by
  refine ⟨?_, ?_, ?_, ?_, ?_⟩
  · rw [MCPAgent.status]
    cases hv : v.ok
    · cases ha : artistAssigned a <;> simp
    · cases ha : artistAssigned a <;> simp
  · intro hv
    rw [MCPAgent.status, hv]
    simp
  · rw [HTTPAgent.status]
    cases hov : stateOk ov
    · cases hoa : stateAssigned oa <;> simp
    · cases hoa : stateAssigned oa <;> simp
  · intro hov
    rw [HTTPAgent.status, hov]
    simp
  · intro hst
    rw [LLMAgent.finalStatus, HTTPAgent.status, hst]
    cases hov : stateOk ov <;> cases hoa : stateAssigned oa <;> simp

/-- Witness for C1: the amended theorem applied at concrete inputs — a
failed validation forces `validation_failed` in the HTTP agent, and the
deterministic pipeline reports `success` for an ok validation plus an
assigned worker. -/
theorem c1_status_invariant_scope_witness :
    HTTPAgent.status (some { ok := false, errors := ["e"] }) none = "validation_failed"
      ∧ (MCPAgent.status { ok := true, errors := [] }
          { artistId := some "art-1", reason := "", alternativeArtists := [] } = "success"
          ↔ ({ ok := true, errors := [] : ValidateResult }).ok = true
            ∧ artistAssigned
                { artistId := some "art-1", reason := "", alternativeArtists := [] } = true) :=
  ⟨(c1_status_invariant_scope { ok := true, errors := [] }
      { artistId := none, reason := "", alternativeArtists := [] }
      (some { ok := false, errors := ["e"] }) none none).2.2.2.1 (by decide),
   (c1_status_invariant_scope { ok := true, errors := [] }
      { artistId := some "art-1", reason := "", alternativeArtists := [] }
      none none none).1⟩

/-- Claim C2 (counterexample): the stdio ReAct loop has no forced early
exit — with a policy that requests `plan_steps` right after a validate
step that returned `ok=false`, the plan step IS executed in the next
iteration (the loop only stops on `finish` or the ceiling). -/
theorem c2_stdio_executes_plan_after_failed_validate :
    (validatePreset [[("id", "rX"), ("account", "aX")]] [] "rX" "aX" "T").ok = false
      ∧ stdioTrace
          (fun obs =>
            if obs.length = 0 then SAction.validate
            else if obs.length = 1 then SAction.plan
            else SAction.finish none)
          (validatePreset [[("id", "rX"), ("account", "aX")]] [] "rX" "aX" "T")
          { steps := ["qa_check", "delivery"], matchedRules := [] }
          { artistId := none, reason := "", alternativeArtists := [] } 8
        = [SAction.validate, SAction.plan, SAction.finish none] := by
  refine ⟨by decide, by decide⟩

/-- Claim C2 (amended): in the HTTP agent's bounded loop, a validate step
that returns `ok=false` is always the last executed action of the run —
the loop exits immediately, so neither `plan_steps` nor `assign_artist`
(nor anything else) is executed afterwards, no matter which action the
policy requests next.  (The stdio agent's loop lacks this forced exit.) -/
theorem httpLoopGo_succ_finish (policy : HState → Nat → HAction)
    (vres : ValidateResult) (pres : PlanResult) (ares : Assignment)
    (n : Nat) (s : HState) (k : Nat) (hp : policy s k = HAction.finish) :
    httpLoopGo policy vres pres ares (n + 1) s k = ([], s) := by
  rw [httpLoopGo, hp]

theorem httpLoopGo_succ_validate (policy : HState → Nat → HAction)
    (vres : ValidateResult) (pres : PlanResult) (ares : Assignment)
    (n : Nat) (s : HState) (k : Nat) (hp : policy s k = HAction.validate) :
    httpLoopGo policy vres pres ares (n + 1) s k
      = (if !vres.ok then ([HAction.validate], { s with validation := some vres })
         else if hAll { s with validation := some vres } then
           ([HAction.validate], { s with validation := some vres })
         else
           (HAction.validate
              :: (httpLoopGo policy vres pres ares n { s with validation := some vres } (k + 1)).1,
            (httpLoopGo policy vres pres ares n { s with validation := some vres } (k + 1)).2)) := by
  rw [httpLoopGo, hp]

theorem httpLoopGo_succ_plan (policy : HState → Nat → HAction)
    (vres : ValidateResult) (pres : PlanResult) (ares : Assignment)
    (n : Nat) (s : HState) (k : Nat) (hp : policy s k = HAction.plan) :
    httpLoopGo policy vres pres ares (n + 1) s k
      = (if hAll { s with planRes := some pres } then
           ([HAction.plan], { s with planRes := some pres })
         else
           (HAction.plan
              :: (httpLoopGo policy vres pres ares n { s with planRes := some pres } (k + 1)).1,
            (httpLoopGo policy vres pres ares n { s with planRes := some pres } (k + 1)).2)) := by
  rw [httpLoopGo, hp]

theorem httpLoopGo_succ_assign (policy : HState → Nat → HAction)
    (vres : ValidateResult) (pres : PlanResult) (ares : Assignment)
    (n : Nat) (s : HState) (k : Nat) (hp : policy s k = HAction.assign) :
    httpLoopGo policy vres pres ares (n + 1) s k
      = (if hAll { s with assignment := some ares } then
           ([HAction.assign], { s with assignment := some ares })
         else
           (HAction.assign
              :: (httpLoopGo policy vres pres ares n { s with assignment := some ares } (k + 1)).1,
            (httpLoopGo policy vres pres ares n { s with assignment := some ares } (k + 1)).2)) := by
  rw [httpLoopGo, hp]

/-- Claim C2 (amended): in the HTTP agent's bounded loop, a validate step
that returns `ok=false` is always the last executed action of the run —
the loop exits immediately, so neither `plan_steps` nor `assign_artist`
(nor anything else) is executed afterwards, no matter which action the
policy requests next.  (The stdio agent's loop lacks this forced exit.) -/
theorem c2_http_failed_validate_is_final (policy : HState → Nat → HAction)
    (vres : ValidateResult) (pres : PlanResult) (ares : Assignment)
    (hok : vres.ok = false) :
    ∀ (fuel : Nat) (s : HState) (k i : Nat),
      ((httpLoopGo policy vres pres ares fuel s k).1)[i]? = some HAction.validate →
      ((httpLoopGo policy vres pres ares fuel s k).1).length = i + 1 := by
  intro fuel
  induction fuel with
  | zero =>
    intro s k i hi
    simp [httpLoopGo] at hi
  | succ n ih =>
    intro s k i hi
    cases hp : policy s k
    · rw [httpLoopGo_succ_validate policy vres pres ares n s k hp, hok] at hi ⊢
      simp only [Bool.not_false, if_true] at hi ⊢
      cases i with
      | zero => rfl
      | succ i => simp at hi
    · rw [httpLoopGo_succ_plan policy vres pres ares n s k hp] at hi ⊢
      by_cases hall : hAll { s with planRes := some pres } = true
      · rw [if_pos hall] at hi ⊢
        cases i with
        | zero => simp at hi
        | succ i => simp at hi
      · rw [if_neg hall] at hi ⊢
        cases i with
        | zero => simp at hi
        | succ i =>
          simp only [List.getElem?_cons_succ] at hi
          simp only [List.length_cons]
          rw [ih _ _ i hi]
    · rw [httpLoopGo_succ_assign policy vres pres ares n s k hp] at hi ⊢
      by_cases hall : hAll { s with assignment := some ares } = true
      · rw [if_pos hall] at hi ⊢
        cases i with
        | zero => simp at hi
        | succ i => simp at hi
      · rw [if_neg hall] at hi ⊢
        cases i with
        | zero => simp at hi
        | succ i =>
          simp only [List.getElem?_cons_succ] at hi
          simp only [List.length_cons]
          rw [ih _ _ i hi]
    · rw [httpLoopGo_succ_finish policy vres pres ares n s k hp] at hi
      simp at hi

/-- Witness for C2: the amended theorem applied at a failing validation and
a policy that always requests validate. -/
theorem c2_http_failed_validate_is_final_witness :
    ((httpLoopGo (fun _ _ => HAction.validate)
        { ok := false, errors := ["e"] }
        { steps := [], matchedRules := [] }
        { artistId := none, reason := "", alternativeArtists := [] } 6 {} 1).1).length = 0 + 1 :=
  c2_http_failed_validate_is_final (fun _ _ => HAction.validate)
    { ok := false, errors := ["e"] }
    { steps := [], matchedRules := [] }
    { artistId := none, reason := "", alternativeArtists := [] }
    (by decide) 6 {} 1 0 (by decide)

/-- Claim C9 (counterexample): in the HTTP agent, when the external
decision call returns unparsable output on every step, `_react_decide`
falls back to `finish` (run_agent_http.py:497), so the bounded loop
executes NO engine action at all — not the claimed fixed order
validate, plan, assign, finish. -/
theorem c9_http_unparsable_executes_nothing :
    httpTrace (fun _ _ => HAction.finish)
        { ok := true, errors := [] }
        { steps := ["qa_check", "delivery"], matchedRules := [] }
        { artistId := some "a1", artistName := some "A", reason := "",
          matchScore := some 0, alternativeArtists := [] } 6
      = []
    ∧ ([] : List HAction)
        ≠ [HAction.validate, HAction.plan, HAction.assign, HAction.finish] := by
  exact ⟨rfl, by decide⟩

/-- Claim C9 (amended): in the stdio agent, whenever the external decision
function raises, times out, or returns unparsable output on every call
(so that every decision comes from the deterministic fallback of
`_llm_decide_next_action`), the bounded loop executes exactly
validate_preset, plan_steps, assign_artist, finish in that order and
terminates within any step ceiling of at least 4, regardless of the
engine results.  (The HTTP agent's loop instead finishes immediately on
unparsable output.) -/
theorem c9_stdio_fallback_fixed_order
    (vres : ValidateResult) (pres : PlanResult) (ares : Assignment)
    (maxSteps : Nat) (h4 : 4 ≤ maxSteps) :
    stdioTrace fallbackDecide vres pres ares maxSteps
        = [SAction.validate, SAction.plan, SAction.assign, SAction.finish (some "completed")]
      ∧ (stdioTrace fallbackDecide vres pres ares maxSteps).length ≤ maxSteps := by
  obtain ⟨k, rfl⟩ : ∃ k, maxSteps = k + 4 := ⟨maxSteps - 4, by omega⟩
  constructor
  · rfl
  · rw [show stdioTrace fallbackDecide vres pres ares (k + 4)
        = [SAction.validate, SAction.plan, SAction.assign, SAction.finish (some "completed")]
      from rfl]
    simp

/-- Witness for C9: the amended theorem applied at the default stdio step
ceiling of 8 and concrete engine results. -/
theorem c9_stdio_fallback_fixed_order_witness :
    stdioTrace fallbackDecide
          { ok := true, errors := [] }
          { steps := ["qa_check", "delivery"], matchedRules := [] }
          { artistId := none, reason := "", alternativeArtists := [] } 8
        = [SAction.validate, SAction.plan, SAction.assign, SAction.finish (some "completed")]
      ∧ (stdioTrace fallbackDecide
          { ok := true, errors := [] }
          { steps := ["qa_check", "delivery"], matchedRules := [] }
          { artistId := none, reason := "", alternativeArtists := [] } 8).length ≤ 8 :=
  c9_stdio_fallback_fixed_order
    { ok := true, errors := [] }
    { steps := ["qa_check", "delivery"], matchedRules := [] }
    { artistId := none, reason := "", alternativeArtists := [] } 8 (by decide)

theorem rankRows_perm (rows : List Row) : (rankRows rows).Perm rows :=
  List.mergeSort_perm rows rowLe

/-- Claim C8: for every known request, a roster whose workers all have
`skill_score = 0` and `available_capacity = 0` (including the empty
roster) yields a null selection with an empty alternatives list; a worker
is selected only if the top-ranked row passes the minimal-eligibility test
`skill_score > 0 or available_capacity > 0`; and the alternatives are at
most two rows drawn in ranked order from the remaining ranking, all
passing the same test. -/
theorem c8_eligibility_and_alternatives (rules : List Rule) (requests : List Req)
    (artists : List Artist) (requestId : String) (req : Req)
    (h : findReq requests requestId = some req) :
    ((∀ r ∈ artists.map (reqRow rules req), r.skillScore = 0 ∧ r.availableCapacity = 0) →
        (assignArtist rules requests artists requestId).artistId = none
          ∧ (assignArtist rules requests artists requestId).alternativeArtists = [])
      ∧ ((assignArtist rules requests artists requestId).artistId.isSome →
          ∃ top rest, rankRows (artists.map (reqRow rules req)) = top :: rest
            ∧ eligibleRow top = true
            ∧ (assignArtist rules requests artists requestId).artistId = some top.artist.id)
      ∧ ∃ rs : List Row,
          rs.Sublist ((rankRows (artists.map (reqRow rules req))).drop 1)
          ∧ rs.length ≤ 2
          ∧ (∀ r ∈ rs, eligibleRow r = true)
          ∧ (assignArtist rules requests artists requestId).alternativeArtists
              = rs.map (fun r => { id := r.artist.id, name := r.artist.name, score := r.score }) := by
  have hassign : assignArtist rules requests artists requestId
      = selectFromRows (rankRows (artists.map (reqRow rules req))) := by
    rw [assignArtist, h]
  cases hr : rankRows (artists.map (reqRow rules req)) with
  | nil =>
    rw [hassign, hr]
    refine ⟨fun _ => ⟨rfl, rfl⟩, ?_, ⟨[], by simp, by simp, by simp, rfl⟩⟩
    intro hsome
    simp [selectFromRows] at hsome
  | cons top rest =>
    have hassign2 : assignArtist rules requests artists requestId
        = selectFromRows (top :: rest) := by rw [hassign, hr]
    by_cases he : eligibleRow top = true
    · have hsel : selectFromRows (top :: rest)
          = { artistId := some top.artist.id
              artistName := some top.artist.name
              reason := "Best match: " ++ String.intercalate ", " top.reasons
              matchScore := some top.score
              alternativeArtists :=
                ((rest.take 2).filter eligibleRow).map
                  (fun r => { id := r.artist.id, name := r.artist.name, score := r.score }) } := by
        rw [selectFromRows, if_pos he]
      refine ⟨?_, ?_, ?_⟩
      · intro hall
        exfalso
        have htop : top ∈ artists.map (reqRow rules req) := by
          have hmem : top ∈ rankRows (artists.map (reqRow rules req)) := by
            rw [hr]; exact List.mem_cons_self _ _
          exact (rankRows_perm _).mem_iff.mp hmem
        obtain ⟨h1, h2⟩ := hall top htop
        rw [eligibleRow, h1, h2] at he
        simp at he
      · intro _
        refine ⟨top, rest, rfl, he, ?_⟩
        rw [hassign2, hsel]
      · refine ⟨(rest.take 2).filter eligibleRow, ?_, ?_, ?_, ?_⟩
        · simp only [List.drop_succ_cons, List.drop_zero]
          exact (List.filter_sublist _).trans (List.take_sublist 2 rest)
        · calc ((rest.take 2).filter eligibleRow).length
              ≤ (rest.take 2).length := List.length_filter_le _ _
            _ ≤ 2 := List.length_take_le 2 rest
        · intro r hrr
          exact (List.mem_filter.mp hrr).2
        · rw [hassign2, hsel]
    · have hsel : selectFromRows (top :: rest)
          = { artistId := none, reason := "No available artists with matching skills"
              alternativeArtists := [] } := by
        rw [selectFromRows, if_neg he]
      refine ⟨fun _ => ?_, ?_, ⟨[], by simp, by simp, by simp, ?_⟩⟩
      · rw [hassign2, hsel]
        exact ⟨rfl, rfl⟩
      · intro hsome
        rw [hassign2, hsel] at hsome
        simp at hsome
      · rw [hassign2, hsel]
        rfl

/-- Witness for C8: the theorem applied at a concrete known request and a
one-worker roster with free capacity. -/
theorem c8_eligibility_and_alternatives_witness :
    ((∀ r ∈ [{ id := "a1", name := "A", skills := [], capacity := 2, load := 0 : Artist }].map
          (reqRow [] [("id", "r8")]),
        r.skillScore = 0 ∧ r.availableCapacity = 0) →
        (assignArtist [] [[("id", "r8")]]
            [{ id := "a1", name := "A", skills := [], capacity := 2, load := 0 }] "r8").artistId = none
          ∧ (assignArtist [] [[("id", "r8")]]
              [{ id := "a1", name := "A", skills := [], capacity := 2, load := 0 }] "r8").alternativeArtists = [])
      ∧ ((assignArtist [] [[("id", "r8")]]
            [{ id := "a1", name := "A", skills := [], capacity := 2, load := 0 }] "r8").artistId.isSome →
          ∃ top rest,
            rankRows ([{ id := "a1", name := "A", skills := [], capacity := 2, load := 0 : Artist }].map
                (reqRow [] [("id", "r8")]))
              = top :: rest
            ∧ eligibleRow top = true
            ∧ (assignArtist [] [[("id", "r8")]]
                [{ id := "a1", name := "A", skills := [], capacity := 2, load := 0 }] "r8").artistId
              = some top.artist.id)
      ∧ ∃ rs : List Row,
          rs.Sublist ((rankRows ([{ id := "a1", name := "A", skills := [], capacity := 2, load := 0 : Artist }].map
              (reqRow [] [("id", "r8")]))).drop 1)
          ∧ rs.length ≤ 2
          ∧ (∀ r ∈ rs, eligibleRow r = true)
          ∧ (assignArtist [] [[("id", "r8")]]
              [{ id := "a1", name := "A", skills := [], capacity := 2, load := 0 }] "r8").alternativeArtists
            = rs.map (fun r => { id := r.artist.id, name := r.artist.name, score := r.score }) :=
  c8_eligibility_and_alternatives [] [[("id", "r8")]]
    [{ id := "a1", name := "A", skills := [], capacity := 2, load := 0 }] "r8"
    [("id", "r8")] (by decide)

theorem keyLe_iff (a1 a2 a3 a4 a5 b1 b2 b3 b4 b5 : Int) :
    keyLe (a1, a2, a3, a4, a5) (b1, b2, b3, b4, b5) = true
      ↔ a1 < b1 ∨ (a1 = b1 ∧ (a2 < b2 ∨ (a2 = b2 ∧ (a3 < b3
          ∨ (a3 = b3 ∧ (a4 < b4 ∨ (a4 = b4 ∧ a5 ≤ b5))))))) := by
  rw [keyLe]
  split_ifs with h1 h2 h3 h4 <;> simp_all

theorem keyLe_total (a b : RowKey) : keyLe a b = true ∨ keyLe b a = true := by
  obtain ⟨a1, a2, a3, a4, a5⟩ := a
  obtain ⟨b1, b2, b3, b4, b5⟩ := b
  rw [keyLe_iff, keyLe_iff]
  omega

theorem keyLe_trans (a b c : RowKey) (h1 : keyLe a b = true) (h2 : keyLe b c = true) :
    keyLe a c = true := by
  obtain ⟨a1, a2, a3, a4, a5⟩ := a
  obtain ⟨b1, b2, b3, b4, b5⟩ := b
  obtain ⟨c1, c2, c3, c4, c5⟩ := c
  rw [keyLe_iff] at h1 h2 ⊢
  omega

theorem keyLe_antisymm (a b : RowKey) (h1 : keyLe a b = true) (h2 : keyLe b a = true) :
    a = b := by
  obtain ⟨a1, a2, a3, a4, a5⟩ := a
  obtain ⟨b1, b2, b3, b4, b5⟩ := b
  rw [keyLe_iff] at h1 h2
  simp only [Prod.mk.injEq]
  omega

theorem rowLe_trans (a b c : Row) (h1 : rowLe a b = true) (h2 : rowLe b c = true) :
    rowLe a c = true :=
  keyLe_trans (rowKey c) (rowKey b) (rowKey a) h2 h1

theorem rowLe_total (a b : Row) : (rowLe a b || rowLe b a) = true := by
  rcases keyLe_total (rowKey b) (rowKey a) with h | h
  · rw [rowLe, h]; rfl
  · rw [show rowLe b a = true from h]
    simp

theorem rankRows_sorted (rows : List Row) :
    List.Pairwise (fun a b => rowLe a b = true) (rankRows rows) :=
  List.sorted_mergeSort (fun a b c => rowLe_trans a b c) rowLe_total rows

theorem keyLe_refl (a : RowKey) : keyLe a a = true := by
  obtain ⟨a1, a2, a3, a4, a5⟩ := a
  rw [keyLe_iff]
  omega

theorem rank_filter_key (rows : List Row) (k : RowKey) :
    (rankRows rows).filter (fun r => rowKey r == k)
      = rows.filter (fun r => rowKey r == k) := by
  have hperm : ((rankRows rows).filter (fun r => rowKey r == k)).Perm
      (rows.filter (fun r => rowKey r == k)) :=
    (rankRows_perm rows).filter _
  have hpw : List.Pairwise (fun a b => rowLe a b = true)
      (rows.filter (fun r => rowKey r == k)) := by
    apply List.pairwise_of_forall_mem_list
    intro a ha b hb
    have hka : rowKey a = k := by
      have := (List.mem_filter.mp ha).2
      simpa using this
    have hkb : rowKey b = k := by
      have := (List.mem_filter.mp hb).2
      simpa using this
    show keyLe (rowKey b) (rowKey a) = true
    rw [hka, hkb]
    exact keyLe_refl k
  have hsub : (rows.filter (fun r => rowKey r == k)).Sublist (rankRows rows) :=
    List.sublist_mergeSort (fun a b c => rowLe_trans a b c) rowLe_total hpw
      (List.filter_sublist rows)
  have hsub2 : (rows.filter (fun r => rowKey r == k)).Sublist
      ((rankRows rows).filter (fun r => rowKey r == k)) := by
    have hself : (rows.filter (fun r => rowKey r == k)).filter (fun r => rowKey r == k)
        = rows.filter (fun r => rowKey r == k) := by
      apply List.filter_eq_self.mpr
      intro a ha
      exact (List.mem_filter.mp ha).2
    have := hsub.filter (fun r => rowKey r == k)
    rwa [hself] at this
  exact (hsub2.eq_of_length hperm.length_eq.symm).symm

theorem rank_map_key_eq (rows rows' : List Row) (hp : rows.Perm rows') :
    (rankRows rows).map rowKey = (rankRows rows').map rowKey := by
  have hs1 : List.Pairwise (fun x y : RowKey => keyLe y x = true)
      ((rankRows rows).map rowKey) :=
    List.pairwise_map.mpr (rankRows_sorted rows)
  have hs2 : List.Pairwise (fun x y : RowKey => keyLe y x = true)
      ((rankRows rows').map rowKey) :=
    List.pairwise_map.mpr (rankRows_sorted rows')
  have hpm : ((rankRows rows).map rowKey).Perm ((rankRows rows').map rowKey) :=
    (((rankRows_perm rows).trans hp).trans (rankRows_perm rows').symm).map rowKey
  exact List.Perm.eq_of_sorted
    (fun x y _ _ h1 h2 => keyLe_antisymm x y h2 h1) hs1 hs2 hpm

theorem rank_eq_of_nodup_keys (rows rows' : List Row) (hp : rows.Perm rows')
    (hnd : (rows.map rowKey).Nodup) : rankRows rows = rankRows rows' := by
  refine List.Perm.eq_of_sorted ?_ (rankRows_sorted rows) (rankRows_sorted rows')
    (((rankRows_perm rows).trans hp).trans (rankRows_perm rows').symm)
  intro a b ha hb h1 h2
  have ha' : a ∈ rows := (rankRows_perm rows).mem_iff.mp ha
  have hb' : b ∈ rows := hp.symm.mem_iff.mp ((rankRows_perm rows').mem_iff.mp hb)
  have hk : rowKey a = rowKey b :=
    keyLe_antisymm (rowKey a) (rowKey b) h2 h1
  exact List.inj_on_of_nodup_map hnd ha' hb' hk

/-- Claim C3: the ranking of `assign_artist` is invariant under
permutations of the worker roster except for genuine ties.  Precisely, for
permuted rosters: the ranked key sequence is identical; within the
ranking, the rows of any fixed sort-key tuple appear exactly in their
roster order (stability, so equal-key workers keep their original relative
order); and when all sort keys are distinct the two rankings — and hence
the selected worker and the alternatives list of `assign_artist` — are
identical. -/
theorem c3_ranking_roster_perm_invariant (rules : List Rule) (req : Req)
    (l l' : List Artist) (hp : l.Perm l') :
    ((rankRows (l.map (reqRow rules req))).map rowKey
        = (rankRows (l'.map (reqRow rules req))).map rowKey)
      ∧ (∀ k : RowKey,
          (rankRows (l'.map (reqRow rules req))).filter (fun r => rowKey r == k)
            = (l'.map (reqRow rules req)).filter (fun r => rowKey r == k))
      ∧ (((l.map (reqRow rules req)).map rowKey).Nodup →
          rankRows (l.map (reqRow rules req)) = rankRows (l'.map (reqRow rules req)))
      ∧ ∀ (requests : List Req) (requestId : String),
          findReq requests requestId = some req →
          ((l.map (reqRow rules req)).map rowKey).Nodup →
          assignArtist rules requests l requestId = assignArtist rules requests l' requestId := by
  have hrows : (l.map (reqRow rules req)).Perm (l'.map (reqRow rules req)) :=
    hp.map (reqRow rules req)
  refine ⟨rank_map_key_eq _ _ hrows, fun k => rank_filter_key _ k, ?_, ?_⟩
  · intro hnd
    exact rank_eq_of_nodup_keys _ _ hrows hnd
  · intro requests requestId hfind hnd
    rw [assignArtist, hfind, assignArtist, hfind]
    exact congrArg selectFromRows (rank_eq_of_nodup_keys _ _ hrows hnd)

/-- Witness for C3: the invariance theorem applied to a concrete two-worker
roster and its reversal. -/
theorem c3_ranking_roster_perm_invariant_witness :
    ((rankRows ([{ id := "a1", name := "A", skills := [], capacity := 1, load := 0 },
          { id := "a2", name := "B", skills := [], capacity := 2, load := 0 : Artist }].map
          (reqRow [] [("id", "r3")]))).map rowKey
        = (rankRows ([{ id := "a2", name := "B", skills := [], capacity := 2, load := 0 },
            { id := "a1", name := "A", skills := [], capacity := 1, load := 0 : Artist }].map
            (reqRow [] [("id", "r3")]))).map rowKey)
      ∧ (∀ k : RowKey,
          (rankRows ([{ id := "a2", name := "B", skills := [], capacity := 2, load := 0 },
              { id := "a1", name := "A", skills := [], capacity := 1, load := 0 : Artist }].map
              (reqRow [] [("id", "r3")]))).filter (fun r => rowKey r == k)
            = ([{ id := "a2", name := "B", skills := [], capacity := 2, load := 0 },
                { id := "a1", name := "A", skills := [], capacity := 1, load := 0 : Artist }].map
                (reqRow [] [("id", "r3")])).filter (fun r => rowKey r == k))
      ∧ ((([{ id := "a1", name := "A", skills := [], capacity := 1, load := 0 },
            { id := "a2", name := "B", skills := [], capacity := 2, load := 0 : Artist }].map
            (reqRow [] [("id", "r3")])).map rowKey).Nodup →
          rankRows ([{ id := "a1", name := "A", skills := [], capacity := 1, load := 0 },
              { id := "a2", name := "B", skills := [], capacity := 2, load := 0 : Artist }].map
              (reqRow [] [("id", "r3")]))
            = rankRows ([{ id := "a2", name := "B", skills := [], capacity := 2, load := 0 },
                { id := "a1", name := "A", skills := [], capacity := 1, load := 0 : Artist }].map
                (reqRow [] [("id", "r3")])))
      ∧ ∀ (requests : List Req) (requestId : String),
          findReq requests requestId = some [("id", "r3")] →
          (([{ id := "a1", name := "A", skills := [], capacity := 1, load := 0 },
              { id := "a2", name := "B", skills := [], capacity := 2, load := 0 : Artist }].map
              (reqRow [] [("id", "r3")])).map rowKey).Nodup →
          assignArtist [] requests
              [{ id := "a1", name := "A", skills := [], capacity := 1, load := 0 },
               { id := "a2", name := "B", skills := [], capacity := 2, load := 0 }] requestId
            = assignArtist [] requests
                [{ id := "a2", name := "B", skills := [], capacity := 2, load := 0 },
                 { id := "a1", name := "A", skills := [], capacity := 1, load := 0 }] requestId :=
  c3_ranking_roster_perm_invariant [] [("id", "r3")]
    [{ id := "a1", name := "A", skills := [], capacity := 1, load := 0 },
     { id := "a2", name := "B", skills := [], capacity := 2, load := 0 }]
    [{ id := "a2", name := "B", skills := [], capacity := 2, load := 0 },
     { id := "a1", name := "A", skills := [], capacity := 1, load := 0 }]
    (by decide)
